import Mathlib

/-!
Verification of the `twitterfeed` package (src/twitter.go) against its
natural-language specification.

Shallow embedding conventions:
* Go strings are modelled as Lean `String` (a list of runes); byte-level
  operations (form encoding, Content-Length) work on the UTF-8 byte
  sequence, computed explicitly as `List Nat`.
* `strings.ToLower` is modelled by rune-wise lowering `goToLower`;
  `strings.Contains text sub` by infix containment of the rune lists.
* The two goroutines spawned by `Run` are modelled as trace functions
  over a finite schedule of observed events (select-branch decisions and
  connection-attempt outcomes); the events they emit (channel sends, the
  single `close(tweetsChan)`, log lines, `resp.Body.Close()`, and
  `closeCurrent` invocations on the connection slot) form the trace.
* The shared `conn` slot guarded by `connLock` is modelled as a
  `Registry` state; the lock linearizes the slot operations, so each
  critical section becomes one atomic function on `Registry`.
-/

/-- Tweet is a single tweet (struct `Tweet` in twitter.go): `Text` is the
body, `Terms` the list of matching terms. -/
structure Tweet where
  Text : String
  Terms : List String
deriving Repr, DecidableEq

/-- Model of Go `strings.ToLower`: rune-wise lowering. -/
def goToLower (s : String) : String := String.mk (s.data.map Char.toLower)

/-- Model of Go `strings.Contains text sub`: `sub` occurs as a contiguous
substring of `text`. -/
def goContains (text sub : String) : Bool :=
  decide (sub.data <:+: text.data)

/-- `foundTerms` from twitter.go: lower-cases the text once, then keeps
each term (in order) whose lower-cased form is contained in the lowered
text. -/
def foundTerms (text : String) (terms : List String) : List String :=
  let lowered := goToLower text
  terms.filter (fun term => goContains lowered (goToLower term))

/-- The JSON value decoded for one tweet: the string-valued fields of one
JSON object, in order of appearance. (The upstream frames are
newline-delimited JSON objects; only the text field is consumed.) -/
abbrev JsonFields : Type := List (String × String)

/-- Model of Go `encoding/json` field-name resolution: JSON keys match the
struct field `Text` case-insensitively (`strings.EqualFold`). -/
def eqFold (a b : String) : Bool := goToLower a == goToLower b

/-- Model of `decoder.Decode(&t)` on one well-formed object for the struct
`Tweet`: every key matching the field name `Text` (case-insensitively)
stores its value into the field, later occurrences overriding earlier
ones; a missing key leaves the zero value `""`. `Terms` has no JSON data
here and stays `[]` (it is overwritten by `foundTerms` before the send). -/
def decodeTweet (fields : List (String × String)) : Tweet :=
  { Text := fields.foldl (fun acc kv => if eqFold kv.1 "Text" then kv.2 else acc) ""
    Terms := [] }

/-- One result of `decoder.Decode`: a well-formed object, or a decode
error (malformed JSON, EOF, or a read error from a severed socket). -/
abbrev DecodeResult : Type := Except Unit (List (String × String))

/-- The inner decode loop of the pump (twitter.go lines 136-143): decode
one object at a time; on the first error stop; otherwise annotate the
tweet with `foundTerms` of its own text and emit it. Returns the tweets
sent on the channel from this connection, in order. -/
def decodeLoop (terms : List String) : List DecodeResult → List Tweet
  | [] => []
  | Except.error _ :: _ => []
  | Except.ok fields :: rest =>
    let t := decodeTweet fields
    { t with Terms := foundTerms t.Text terms } :: decodeLoop terms rest

/-- Claim C3. `foundTerms` returns exactly the subset of the input terms
whose lower-cased form occurs as a substring of the lower-cased text, in
original term order, without duplicates beyond what the input list
contains (the result is a sublist of the input), and is empty when no
term matches. -/
theorem foundTerms_matches_spec (text : String) (terms : List String) :
    (foundTerms text terms).Sublist terms ∧
    (∀ term, term ∈ foundTerms text terms ↔
      term ∈ terms ∧ (goToLower term).data <:+: (goToLower text).data) ∧
    ((∀ term ∈ terms, ¬ (goToLower term).data <:+: (goToLower text).data) →
      foundTerms text terms = []) := by
  refine ⟨List.filter_sublist _, ?_, ?_⟩
  · intro term
    simp [foundTerms, goContains, List.mem_filter]
  · intro h
    simp only [foundTerms, goContains, List.filter_eq_nil_iff]
    intro term hmem
    simpa using h term hmem

/-- Witness for C3: evaluating `foundTerms_matches_spec` at concrete
inputs, discharging the no-match hypothesis. -/
theorem foundTerms_matches_spec_witness :
    foundTerms "nothing here" ["x"] = [] ∧
    foundTerms "cat and dog" ["dog", "cat"] = ["dog", "cat"] :=
  ⟨(foundTerms_matches_spec "nothing here" ["x"]).2.2 (by decide), by decide⟩

/-- Every tweet emitted by the decode loop carries `Terms` computed by
`foundTerms` from its own `Text` against the watch terms. -/
lemma decodeLoop_terms_eq (terms : List String) (body : List DecodeResult) :
    ∀ t ∈ decodeLoop terms body, t.Terms = foundTerms t.Text terms := by
  induction body with
  | nil => intro t ht; simp [decodeLoop] at ht
  | cons head tail ih =>
    cases head with
    | error e => intro t ht; simp [decodeLoop] at ht
    | ok fields =>
      intro t ht
      simp only [decodeLoop, List.mem_cons] at ht
      rcases ht with h | h
      · subst h; rfl
      · exact ih t h

/-- Counting occurrences is unchanged by a filter whose predicate holds at
the counted element. -/
lemma count_filter_of_pos {α : Type} [DecidableEq α] {p : α → Bool} {a : α}
    (h : p a = true) (l : List α) : (l.filter p).count a = l.count a := by
  induction l with
  | nil => rfl
  | cons b l ih =>
    by_cases hb : b = a
    · subst hb
      simp [List.filter_cons, h, List.count_cons, ih]
    · simp only [List.filter_cons]
      by_cases hp : p b
      · simp [hp, List.count_cons, hb, ih]
      · simp [hp, List.count_cons, hb, ih]

/-- Claim C8. An empty watch term matches every text: `foundTerms` keeps
every empty-string term (the count of `""` in the result equals its count
in the input terms), and hence every record emitted by the decode loop
has every empty watch term in its `Terms` list. -/
theorem foundTerms_empty_term_always_matches (text : String) (terms : List String)
    (body : List DecodeResult) :
    (foundTerms text terms).count "" = terms.count "" ∧
    (∀ t ∈ decodeLoop terms body, t.Terms.count "" = terms.count "") := by
  have hkeep : ∀ s : String, (foundTerms s terms).count "" = terms.count "" := by
    intro s
    exact count_filter_of_pos (by simp [goContains, goToLower]) terms
  refine ⟨hkeep text, ?_⟩
  intro t ht
  rw [decodeLoop_terms_eq terms body t ht]
  exact hkeep t.Text

/-- Witness for C8: with watch terms `["", "zebra"]`, the record decoded
from `{}` carries the empty term. -/
theorem foundTerms_empty_term_always_matches_witness :
    (Tweet.mk "" ["" ]).Terms.count "" = (["", "zebra"] : List String).count "" := by
  have h := (foundTerms_empty_term_always_matches "x" ["", "zebra"]
    [Except.ok []]).2 (Tweet.mk "" ["" ]) (by decide)
  exact h

/-- An observable action of the pump or recycler goroutines:
a send on `tweetsChan`, the (deferred) `close(tweetsChan)`, a `log.Println`
line, a `resp.Body.Close()`, or a close-the-current-connection critical
section (the recycler's `connLock`-guarded close). -/
inductive Event where
  | send (t : Tweet)
  | close
  | log (msg : String)
  | bodyClose
  | closeCur
deriving Repr, DecidableEq

/-- The HTTP response one connection attempt observes, with the body given
in the two forms the code reads it: the first line a `bufio.Scanner`
yields (non-200 branch) and the successive `json.Decoder` results
(200 branch). Both are views of the same octet stream. -/
structure HttpResponse where
  statusCode : Nat
  bodyFirstLine : String
  bodyDecode : List DecodeResult

/-- The outcome of one iteration of the pump's outer loop, as far as the
code can distinguish: `http.NewRequest` failure, `client.Do` failure
(covers dial errors and timeouts), or a response. -/
inductive AttemptOutcome where
  | reqError
  | doError
  | response (resp : HttpResponse)

/-- The events one pump iteration emits (twitter.go lines 108-144): a
request-construction or transport error only logs; a non-200 response
logs the scanner's first body line and the status code; a 200 response
runs the decode loop, sending each annotated tweet, then closes the
response body (the deferred `resp.Body.Close()`). -/
def pumpStep (terms : List String) : AttemptOutcome → List Event
  | AttemptOutcome.reqError => [Event.log "creating filter request failed"]
  | AttemptOutcome.doError => [Event.log "Error getting response"]
  | AttemptOutcome.response resp =>
    if resp.statusCode ≠ 200 then
      [Event.log resp.bodyFirstLine,
       Event.log ("StatusCode = " ++ Nat.repr resp.statusCode)]
    else
      (decodeLoop terms resp.bodyDecode).map Event.send ++ [Event.bodyClose]

/-- What the pump's top-of-loop `select` observes in one iteration: either
`ctx.Done()` is ready (cancellation has fired), or the default branch
runs one connection attempt with the given outcome. -/
inductive PumpInput where
  | cancelled
  | attempt (o : AttemptOutcome)

/-- The pump goroutine (twitter.go lines 101-147) over a finite schedule
of iterations: at `cancelled` it returns, firing the deferred
`close(tweetsChan)`; otherwise it performs one attempt and loops. An
exhausted schedule models a still-running pump (no close yet). -/
def pumpLoop (terms : List String) : List PumpInput → List Event
  | [] => []
  | PumpInput.cancelled :: _ => [Event.close]
  | PumpInput.attempt o :: rest => pumpStep terms o ++ pumpLoop terms rest

/-- No single pump iteration ever closes the channel: the close happens
only via the deferred call when the goroutine returns. -/
lemma close_not_mem_pumpStep (terms : List String) (o : AttemptOutcome) :
    Event.close ∉ pumpStep terms o := by
  cases o with
  | reqError => simp [pumpStep]
  | doError => simp [pumpStep]
  | response resp =>
    by_cases h : resp.statusCode = 200
    · simp [pumpStep, h]
    · simp [pumpStep, h]

/-- Attempts before cancellation contribute their step events and nothing
else; no close among them. -/
lemma pumpLoop_attempts (terms : List String) (pre : List AttemptOutcome) :
    pumpLoop terms (pre.map PumpInput.attempt) = pre.flatMap (pumpStep terms) ∧
    Event.close ∉ pre.flatMap (pumpStep terms) := by
  induction pre with
  | nil => simp [pumpLoop]
  | cons o rest ih =>
    constructor
    · simp only [List.map_cons, List.flatMap_cons, pumpLoop]
      rw [ih.1]
    · simp only [List.flatMap_cons, List.mem_append]
      rintro (h | h)
      · exact close_not_mem_pumpStep terms o h
      · exact ih.2 h

/-- The pump over attempts followed by any continuation: the attempts
contribute their events up front. -/
lemma pumpLoop_append (terms : List String) (pre : List AttemptOutcome)
    (l : List PumpInput) :
    pumpLoop terms (pre.map PumpInput.attempt ++ l)
      = pre.flatMap (pumpStep terms) ++ pumpLoop terms l := by
  induction pre with
  | nil => simp [pumpLoop]
  | cons o rest ih =>
    simp only [List.map_cons, List.cons_append, List.flatMap_cons, pumpLoop,
      List.append_assoc]
    rw [show (List.map PumpInput.attempt rest).append l
        = List.map PumpInput.attempt rest ++ l from rfl, ih]

/-- Claim C1. The channel is closed exactly once, only when the pump
returns: a run whose schedule reaches cancellation after any finite list
of connection attempts (each possibly severed mid-record) emits exactly
the attempts' events followed by one final `close`, nothing after it, and
the schedule after the cancellation point contributes nothing; while
cancellation has not been observed, no `close` is emitted at all. -/
theorem run_channel_closed_once (terms : List String)
    (pre : List AttemptOutcome) (rest : List PumpInput) :
    pumpLoop terms (pre.map PumpInput.attempt ++ PumpInput.cancelled :: rest)
      = pre.flatMap (pumpStep terms) ++ [Event.close] ∧
    (pumpLoop terms (pre.map PumpInput.attempt ++ PumpInput.cancelled :: rest)).count
      Event.close = 1 ∧
    (pumpLoop terms (pre.map PumpInput.attempt ++ PumpInput.cancelled :: rest)).getLast?
      = some Event.close ∧
    (pumpLoop terms (pre.map PumpInput.attempt)).count Event.close = 0 := by
  have htrace : pumpLoop terms (pre.map PumpInput.attempt ++ PumpInput.cancelled :: rest)
      = pre.flatMap (pumpStep terms) ++ [Event.close] := by
    rw [pumpLoop_append]; rfl
  have hnoclose := (pumpLoop_attempts terms pre).2
  refine ⟨htrace, ?_, ?_, ?_⟩
  · rw [htrace, List.count_append, List.count_eq_zero.mpr hnoclose]
    simp
  · rw [htrace]
    simp
  · rw [(pumpLoop_attempts terms pre).1, List.count_eq_zero.mpr hnoclose]

/-- Claim C4. A non-200 response only logs the first body line (the
diagnostic) and the status code: it delivers no record and does not close
the channel; the loop goes straight on to the next attempt, any number n
of consecutive such attempts is survived (no backoff, no attempt cap),
and a later healthy (200) connection still delivers its decoded records. -/
theorem non200_response_is_transient (terms : List String)
    (resp good : HttpResponse) (rest rest2 : List PumpInput) (n : Nat)
    (h : resp.statusCode ≠ 200) (hg : good.statusCode = 200) :
    pumpStep terms (AttemptOutcome.response resp)
      = [Event.log resp.bodyFirstLine,
         Event.log ("StatusCode = " ++ Nat.repr resp.statusCode)] ∧
    (∀ t, Event.send t ∉ pumpStep terms (AttemptOutcome.response resp)) ∧
    Event.close ∉ pumpStep terms (AttemptOutcome.response resp) ∧
    pumpLoop terms (PumpInput.attempt (AttemptOutcome.response resp) :: rest)
      = pumpStep terms (AttemptOutcome.response resp) ++ pumpLoop terms rest ∧
    pumpLoop terms (List.replicate n (PumpInput.attempt (AttemptOutcome.response resp))
        ++ rest2)
      = List.flatten (List.replicate n (pumpStep terms (AttemptOutcome.response resp)))
        ++ pumpLoop terms rest2 ∧
    pumpLoop terms (PumpInput.attempt (AttemptOutcome.response resp)
        :: PumpInput.attempt (AttemptOutcome.response good) :: rest)
      = Event.log resp.bodyFirstLine
        :: Event.log ("StatusCode = " ++ Nat.repr resp.statusCode)
        :: ((decodeLoop terms good.bodyDecode).map Event.send
            ++ [Event.bodyClose] ++ pumpLoop terms rest) := by
  have hstep : pumpStep terms (AttemptOutcome.response resp)
      = [Event.log resp.bodyFirstLine,
         Event.log ("StatusCode = " ++ Nat.repr resp.statusCode)] := by
    simp [pumpStep, h]
  refine ⟨hstep, ?_, ?_, rfl, ?_, ?_⟩
  · intro t; rw [hstep]; simp
  · rw [hstep]; simp
  · induction n with
    | zero => simp [pumpLoop]
    | succ k ih =>
      simp only [List.replicate_succ, List.cons_append, pumpLoop,
        List.flatten_cons, List.append_assoc]
      rw [show (List.replicate k (PumpInput.attempt (AttemptOutcome.response resp))).append
          rest2
          = List.replicate k (PumpInput.attempt (AttemptOutcome.response resp)) ++ rest2
          from rfl, ih]
  · simp [pumpLoop, pumpStep, h, hg, List.append_assoc]

/-- Witness for C4: a mocked 420 response followed by a healthy connection
carrying one record still yields that record. -/
theorem non200_response_is_transient_witness :
    pumpLoop ["monkey"]
      [PumpInput.attempt (AttemptOutcome.response ⟨420, "Enhance Your Calm", []⟩),
       PumpInput.attempt (AttemptOutcome.response
         ⟨200, "", [Except.ok [("text", "a monkey appears")]]⟩)]
      = [Event.log "Enhance Your Calm", Event.log "StatusCode = 420",
         Event.send ⟨"a monkey appears", ["monkey"]⟩, Event.bodyClose] := by
  have h := non200_response_is_transient ["monkey"]
    ⟨420, "Enhance Your Calm", []⟩
    ⟨200, "", [Except.ok [("text", "a monkey appears")]]⟩
    [] [] 0 (by decide) rfl
  rw [h.2.2.2.2.2]
  decide

/-- Claim C5. A 200 connection whose body decodes to N well-formed objects
followed by a decode failure yields exactly the N records, in order, each
annotated (before its send) with the terms matched against its own text;
the failure stops the loop (everything after the error is ignored), the
response body is closed, and the pump goes back to the top of its loop. -/
theorem decode_loop_yields_each_record (terms : List String)
    (objs : List JsonFields) (tail : List DecodeResult)
    (resp : HttpResponse) (rest : List PumpInput)
    (hg : resp.statusCode = 200) :
    decodeLoop terms (objs.map Except.ok ++ Except.error () :: tail)
      = objs.map (fun fields =>
          { Text := (decodeTweet fields).Text
            Terms := foundTerms (decodeTweet fields).Text terms }) ∧
    (decodeLoop terms (objs.map Except.ok ++ Except.error () :: tail)).length
      = objs.length ∧
    (∀ t ∈ decodeLoop terms (objs.map Except.ok ++ Except.error () :: tail),
      t.Terms = foundTerms t.Text terms) ∧
    pumpStep terms (AttemptOutcome.response resp)
      = (decodeLoop terms resp.bodyDecode).map Event.send ++ [Event.bodyClose] ∧
    pumpLoop terms (PumpInput.attempt (AttemptOutcome.response resp) :: rest)
      = (decodeLoop terms resp.bodyDecode).map Event.send ++ [Event.bodyClose]
        ++ pumpLoop terms rest := by
  have hdec : decodeLoop terms (objs.map Except.ok ++ Except.error () :: tail)
      = objs.map (fun fields =>
          { Text := (decodeTweet fields).Text
            Terms := foundTerms (decodeTweet fields).Text terms }) := by
    induction objs with
    | nil => rfl
    | cons fields more ih =>
      simp only [List.map_cons, List.cons_append, decodeLoop]
      rw [show (List.map Except.ok more).append (Except.error () :: tail)
          = List.map (Except.ok (ε := Unit)) more ++ Except.error () :: tail from rfl, ih]
  refine ⟨hdec, by rw [hdec]; simp, decodeLoop_terms_eq terms _, ?_, ?_⟩
  · simp [pumpStep, hg]
  · simp [pumpLoop, pumpStep, hg, List.append_assoc]

/-- Witness for C5: a 200 response with two back-to-back objects then EOF
yields exactly the two annotated records and a body close. -/
theorem decode_loop_yields_each_record_witness :
    pumpLoop ["dog", "cat"]
      [PumpInput.attempt (AttemptOutcome.response
        ⟨200, "",
         [Except.ok [("text", "cat and dog")], Except.ok [("text", "no pets")],
          Except.error ()]⟩)]
      = [Event.send ⟨"cat and dog", ["dog", "cat"]⟩,
         Event.send ⟨"no pets", []⟩, Event.bodyClose] := by
  have h := decode_loop_yields_each_record ["dog", "cat"]
    [[("text", "cat and dog")], [("text", "no pets")]] []
    ⟨200, "",
     [Except.ok [("text", "cat and dog")], Except.ok [("text", "no pets")],
      Except.error ()]⟩ [] rfl
  rw [h.2.2.2.2]
  decide

/-- Decoding leaves `Text` at its zero value when no key of the object
matches the field name. -/
lemma decodeTweet_text_of_no_match (fields : JsonFields)
    (h : ∀ kv ∈ fields, eqFold kv.1 "Text" = false) :
    (decodeTweet fields).Text = "" := by
  show fields.foldl (fun acc kv => if eqFold kv.1 "Text" then kv.2 else acc) "" = ""
  induction fields with
  | nil => rfl
  | cons kv more ih =>
    simp only [List.foldl_cons, h kv (List.mem_cons_self kv more)]
    exact ih (fun kv hkv => h kv (List.mem_cons_of_mem _ hkv))

/-- Claim C9. A well-formed object with no text field (such as `{}`) still
decodes into a record with empty text, is annotated against the watch
terms, and is emitted — it is not skipped and does not stop the loop. -/
theorem decode_missing_text_field (terms : List String)
    (rest : List DecodeResult) (fields : JsonFields)
    (h : ∀ kv ∈ fields, eqFold kv.1 "Text" = false) :
    (decodeTweet fields).Text = "" ∧
    decodeLoop terms (Except.ok fields :: rest)
      = { Text := "", Terms := foundTerms "" terms } :: decodeLoop terms rest ∧
    decodeLoop terms (Except.ok [] :: rest)
      = { Text := "", Terms := foundTerms "" terms } :: decodeLoop terms rest := by
  have htext := decodeTweet_text_of_no_match fields h
  refine ⟨htext, ?_, rfl⟩
  show ({ decodeTweet fields with
      Terms := foundTerms (decodeTweet fields).Text terms } : Tweet)
        :: decodeLoop terms rest
    = { Text := "", Terms := foundTerms "" terms } :: decodeLoop terms rest
  have : decodeTweet fields = { Text := "", Terms := [] } := by
    cases hd : decodeTweet fields with
    | mk a b =>
      have hb : b = [] := by
        have : (decodeTweet fields).Terms = [] := rfl
        rw [hd] at this; exact this
      have ha : a = "" := by rw [hd] at htext; exact htext
      rw [ha, hb]
  rw [this]

/-- Witness for C9: an object whose only field is `user` decodes to empty
text and is still delivered, annotated against the watch terms. -/
theorem decode_missing_text_field_witness :
    decodeLoop ["monkey"] [Except.ok [("user", "bob")], Except.error ()]
      = [{ Text := "", Terms := foundTerms "" ["monkey"] }] := by
  have h := (decode_missing_text_field ["monkey"] [Except.error ()]
    [("user", "bob")] (by decide)).2.1
  rw [h]
  rfl

/-- The shared connection slot of `Run`: `conn` is the `net.Conn` variable
guarded by `connLock` (handles are identified by numbers), and `closed`
records, in order, the handles on which `Close()` has been called. The
lock linearizes the critical sections, so each one is a single atomic
function on this state. -/
structure Registry where
  conn : Option Nat
  closed : List Nat
deriving Repr, DecidableEq

/-- The `connLock`-guarded close used by both recycler branches
(twitter.go lines 84-89 and 92-97): if a handle is stored, close it and
clear the slot; otherwise do nothing. -/
def closeCurrent (r : Registry) : Registry :=
  match r.conn with
  | some c => { conn := none, closed := r.closed ++ [c] }
  | none => r

/-- `net.DialTimeout` is invoked with a fixed 5-second timeout
(twitter.go line 57). -/
def dialTimeoutSeconds : Nat := 5

/-- The transport's `Dial` hook (twitter.go lines 50-63), one critical
section under `connLock`: close and clear any previous handle, then dial
with the fixed timeout; on error return the error (slot left empty), on
success store the new handle and return it. `dialer netw addr timeout`
models the outcome of `net.DialTimeout`. -/
def transportDial (dialer : String → String → Nat → Option Nat)
    (netw addr : String) (r : Registry) : Registry × Option Nat :=
  let r1 := closeCurrent r
  match dialer netw addr dialTimeoutSeconds with
  | none => (r1, none)
  | some netc => ({ r1 with conn := some netc }, some netc)

/-- Claim C2. The registry keeps at most one handle current: the dial hook
first closes and releases any previous handle before storing the new one
(within the one lock-guarded critical section); `closeCurrent` takes the
stored handle, clears the slot and closes it, and is an idempotent no-op
when the slot is empty. -/
theorem registry_replace_and_close (r : Registry) (c n : Nat)
    (dialer : String → String → Nat → Option Nat) (netw addr : String)
    (hc : r.conn = some c) (hd : dialer netw addr dialTimeoutSeconds = some n) :
    transportDial dialer netw addr r
      = ({ conn := some n, closed := r.closed ++ [c] }, some n) ∧
    closeCurrent r = { conn := none, closed := r.closed ++ [c] } ∧
    (∀ s : Registry, s.conn = none → closeCurrent s = s) ∧
    (∀ s : Registry, closeCurrent (closeCurrent s) = closeCurrent s) := by
  have hclose : closeCurrent r = { conn := none, closed := r.closed ++ [c] } := by
    simp [closeCurrent, hc]
  refine ⟨?_, hclose, ?_, ?_⟩
  · simp [transportDial, hclose, hd]
  · intro s hs; simp [closeCurrent, hs]
  · intro s
    cases hs : s.conn with
    | none => simp [closeCurrent, hs]
    | some x => simp [closeCurrent, hs]

/-- Witness for C2: replacing the handle 1 with a freshly dialed handle 2
closes handle 1 first; closing twice equals closing once. -/
theorem registry_replace_and_close_witness :
    transportDial (fun _ _ _ => some 2) "tcp" "example:443" ⟨some 1, []⟩
      = (⟨some 2, [1]⟩, some 2) ∧
    closeCurrent (⟨none, [1]⟩ : Registry) = ⟨none, [1]⟩ := by
  have h := registry_replace_and_close ⟨some 1, []⟩ 1 2
    (fun _ _ _ => some 2) "tcp" "example:443" rfl rfl
  exact ⟨h.1, h.2.2.1 ⟨none, [1]⟩ rfl⟩

/-- Claim C10. The low-level dial applies the fixed 5-second timeout: the
hook consults the dialer only at timeout `dialTimeoutSeconds = 5`; when
that dial fails, no handle is registered for the attempt (the slot is
empty) and an error is returned, which the pump logs as a transport error
and retries (`client.Do` error, `continue`). -/
theorem dial_timeout_applied (r : Registry)
    (dialer dialer2 : String → String → Nat → Option Nat) (netw addr : String)
    (terms : List String) (rest : List PumpInput)
    (hsame : dialer netw addr 5 = dialer2 netw addr 5)
    (hfail : dialer netw addr 5 = none) :
    dialTimeoutSeconds = 5 ∧
    transportDial dialer netw addr r = transportDial dialer2 netw addr r ∧
    transportDial dialer netw addr r = (closeCurrent r, none) ∧
    (transportDial dialer netw addr r).1.conn = none ∧
    pumpLoop terms (PumpInput.attempt AttemptOutcome.doError :: rest)
      = Event.log "Error getting response" :: pumpLoop terms rest := by
  have hfst : transportDial dialer netw addr r = (closeCurrent r, none) := by
    simp [transportDial, dialTimeoutSeconds, hfail]
  refine ⟨rfl, ?_, hfst, ?_, ?_⟩
  · simp [transportDial, dialTimeoutSeconds, hfail, ← hsame]
  · rw [hfst]
    cases hc : r.conn with
    | none => simp [closeCurrent, hc]
    | some x => simp [closeCurrent, hc]
  · simp [pumpLoop, pumpStep]

/-- Witness for C10: a dialer that always times out leaves the slot empty
and the pump logs and moves on. -/
theorem dial_timeout_applied_witness :
    transportDial (fun _ _ _ => none) "tcp" "example:443" ⟨some 7, []⟩
      = (⟨none, [7]⟩, none) ∧
    pumpLoop [] [PumpInput.attempt AttemptOutcome.doError]
      = [Event.log "Error getting response"] := by
  have h := dial_timeout_applied ⟨some 7, []⟩ (fun _ _ _ => none)
    (fun _ _ _ => none) "tcp" "example:443" [] [] rfl rfl
  exact ⟨h.2.2.1, h.2.2.2.2⟩

/-- The interval of the recycler's timer: `time.After(2 * time.Minute)`
(twitter.go line 91). -/
def recyclerIntervalMinutes : Nat := 2

/-- One wakeup of the recycler goroutine's `select`: the periodic timer
fired, or `ctx.Done()` became ready. -/
inductive RecyclerWake where
  | timer
  | cancelled

/-- The recycler goroutine (twitter.go lines 76-100) over a finite
schedule of wakeups, as the actions it performs: each timer fire runs one
`connLock`-guarded close of the current handle and loops; the first
cancellation runs one such close and returns, so the rest of the schedule
is never seen. -/
def recyclerTrace : List RecyclerWake → List Event
  | [] => []
  | RecyclerWake.timer :: rest => Event.closeCur :: recyclerTrace rest
  | RecyclerWake.cancelled :: _ => [Event.closeCur]

/-- The recycler's effect on the connection slot over a schedule: fold of
`closeCurrent`, stopping at the first cancellation. -/
def recyclerRun (r : Registry) : List RecyclerWake → Registry
  | [] => r
  | RecyclerWake.timer :: rest => recyclerRun (closeCurrent r) rest
  | RecyclerWake.cancelled :: _ => closeCurrent r

/-- Every action the recycler ever performs is a close of the current
connection: it never sends on, nor closes, the tweets channel. -/
lemma recyclerTrace_all_closeCur (ws : List RecyclerWake) :
    ∀ e ∈ recyclerTrace ws, e = Event.closeCur := by
  induction ws with
  | nil => intro e he; simp [recyclerTrace] at he
  | cons w tail ih =>
    cases w with
    | timer =>
      intro e he
      simp only [recyclerTrace, List.mem_cons] at he
      rcases he with h | h
      · exact h
      · exact ih e h
    | cancelled =>
      intro e he
      simp only [recyclerTrace, List.mem_singleton] at he
      exact he

/-- Claim C7. On each timer fire the recycler closes the current registry
handle and keeps running (n timer fires give n closes, and the loop goes
on); on cancellation it closes the current handle once and terminates
permanently (whatever follows the cancellation in the schedule
contributes nothing); every action it ever performs is a close of the
current connection — it never sends on or closes the tweets channel and
never decodes; and the timer interval is the fixed 2 minutes. -/
theorem recycler_behaviour (n : Nat) (rest ws : List RecyclerWake)
    (r : Registry) :
    recyclerTrace (List.replicate n RecyclerWake.timer)
      = List.replicate n Event.closeCur ∧
    recyclerTrace (List.replicate n RecyclerWake.timer
        ++ RecyclerWake.cancelled :: rest)
      = List.replicate (n + 1) Event.closeCur ∧
    recyclerRun r (RecyclerWake.cancelled :: rest) = closeCurrent r ∧
    recyclerRun r (RecyclerWake.timer :: rest) = recyclerRun (closeCurrent r) rest ∧
    (∀ e ∈ recyclerTrace ws,
      e = Event.closeCur ∧ (∀ t, e ≠ Event.send t) ∧ e ≠ Event.close) ∧
    recyclerIntervalMinutes = 2 := by
  have htimers : ∀ m : Nat, ∀ l : List RecyclerWake,
      recyclerTrace (List.replicate m RecyclerWake.timer ++ l)
        = List.replicate m Event.closeCur ++ recyclerTrace l := by
    intro m
    induction m with
    | zero => intro l; rfl
    | succ k ih =>
      intro l
      simp only [List.replicate_succ, List.cons_append, recyclerTrace,
        List.replicate_succ]
      rw [show (List.replicate k RecyclerWake.timer).append l
          = List.replicate k RecyclerWake.timer ++ l from rfl, ih l]
  refine ⟨?_, ?_, rfl, rfl, ?_, rfl⟩
  · have := htimers n []
    simpa [recyclerTrace] using this
  · rw [htimers n (RecyclerWake.cancelled :: rest)]
    show List.replicate n Event.closeCur ++ [Event.closeCur]
      = List.replicate (n + 1) Event.closeCur
    rw [← List.replicate_succ' (n := n)]
  · intro e he
    have hcc : e = Event.closeCur := recyclerTrace_all_closeCur ws e he
    subst hcc
    refine ⟨rfl, ?_, ?_⟩
    · intro t h
      exact Event.noConfusion h
    · intro h
      exact Event.noConfusion h

/-- Witness for C7: two timer fires then cancellation give exactly three
closes of the current connection and nothing else. -/
theorem recycler_behaviour_witness :
    recyclerTrace [RecyclerWake.timer, RecyclerWake.timer,
        RecyclerWake.cancelled, RecyclerWake.timer]
      = [Event.closeCur, Event.closeCur, Event.closeCur] ∧
    (Event.closeCur = Event.closeCur ∧
      (∀ t, Event.closeCur ≠ Event.send t) ∧ Event.closeCur ≠ Event.close) := by
  have h := recycler_behaviour 2 [RecyclerWake.timer]
    [RecyclerWake.timer, RecyclerWake.timer, RecyclerWake.cancelled,
     RecyclerWake.timer] ⟨none, []⟩
  exact ⟨h.2.1, h.2.2.2.2.1 Event.closeCur (by decide)⟩

/-- UTF-8 encoding of one rune, as the list of its byte values. -/
def utf8Bytes (c : Char) : List Nat :=
  let n := c.toNat
  if n < 128 then [n]
  else if n < 2048 then [192 + n / 64, 128 + n % 64]
  else if n < 65536 then [224 + n / 4096, 128 + (n / 64) % 64, 128 + n % 64]
  else [240 + n / 262144, 128 + (n / 4096) % 64, 128 + (n / 64) % 64, 128 + n % 64]

/-- The UTF-8 byte sequence of a Go string. -/
def strBytes (s : String) : List Nat := s.data.flatMap utf8Bytes

/-- The byte value of an upper-case hexadecimal digit, as Go's
`"0123456789ABCDEF"[n]`. -/
def hexUpperDigit (n : Nat) : Nat := if n < 10 then 48 + n else 55 + n

/-- Bytes Go's query escaping leaves untouched (`shouldEscape` with
`encodeQueryComponent`): ASCII letters, digits, and `-`, `_`, `.`, `~`. -/
def isUnreservedByte (b : Nat) : Bool :=
  (65 ≤ b && b ≤ 90) || (97 ≤ b && b ≤ 122) || (48 ≤ b && b ≤ 57) ||
  b == 45 || b == 95 || b == 46 || b == 126

/-- Go `url.QueryEscape` over a byte sequence: a space becomes `+`, an
unreserved byte stays, every other byte becomes `%XX` with upper-case
hex. -/
def queryEscapeBytes (bs : List Nat) : List Nat :=
  bs.flatMap fun b =>
    if b == 32 then [43]
    else if isUnreservedByte b then [b]
    else [37, hexUpperDigit (b / 16), hexUpperDigit (b % 16)]

/-- One `key=value` pair of an encoded form, both parts query-escaped. -/
def pairEncode (k v : String) : List Nat :=
  queryEscapeBytes (strBytes k) ++ [61] ++ queryEscapeBytes (strBytes v)

/-- Insert a string into a sorted list (model of `sort.Strings`). -/
def insortStr (s : String) : List String → List String
  | [] => [s]
  | t :: ts => if s ≤ t then s :: t :: ts else t :: insortStr s ts

/-- Sort a list of strings (model of `sort.Strings`). -/
def sortStrings (l : List String) : List String := l.foldr insortStr []

/-- Go `url.Values.Encode`: keys in sorted order; for each key, each of
its values contributes `QueryEscape(key)=QueryEscape(value)`; the pairs
are joined with `&` (byte 38). -/
def valuesEncode (form : List (String × List String)) : List Nat :=
  let keys := sortStrings (form.map Prod.fst)
  List.intercalate [38]
    (keys.flatMap fun k =>
      (((form.find? (fun kv => kv.1 == k)).map Prod.snd).getD []).map (pairEncode k))

/-- The fixed streaming endpoint (twitter.go line 111; `url.Parse` then
`u.String()` reproduces this absolute URL verbatim). -/
def streamURL : String := "https://stream.twitter.com/1.1/statuses/filter.json"

/-- The request one connection attempt issues, with the header values the
code sets explicitly (twitter.go lines 109-119). -/
structure FilterRequest where
  method : String
  url : String
  body : List Nat
  authHeader : String
  contentTypeHeader : String
  contentLengthHeader : String

/-- Construction of the streaming request (twitter.go lines 109-119):
`form = {track: [join(terms, ",")]}`, `formEnc = form.Encode()`, a POST
to the fixed URL with `formEnc` as body, the Authorization header
obtained from the signer over this exact method, URL and form, the fixed
Content-Type, and Content-Length = `strconv.Itoa(len(formEnc))`.
`sign` stands for `authClient.AuthorizationHeader(creds, ...)`; the
signer is an external collaborator. -/
def buildFilterRequest
    (sign : String → String → List (String × List String) → String)
    (terms : List String) : FilterRequest :=
  let form : List (String × List String) :=
    [("track", [String.intercalate "," terms])]
  let formEnc := valuesEncode form
  { method := "POST"
    url := streamURL
    body := formEnc
    authHeader := sign "POST" streamURL form
    contentTypeHeader := "application/x-www-form-urlencoded"
    contentLengthHeader := Nat.repr formEnc.length }

/-- Claim C6. Every connection attempt issues one POST to the fixed
streaming endpoint; the body is exactly the single form field `track`
mapped to the terms joined by a comma (query-escaped); the Authorization
header is signed over this exact method, URL and form; Content-Type is
`application/x-www-form-urlencoded`; and Content-Length is the length of
the encoded body. -/
theorem filter_request_construction
    (sign : String → String → List (String × List String) → String)
    (terms : List String) :
    (buildFilterRequest sign terms).method = "POST" ∧
    (buildFilterRequest sign terms).url
      = "https://stream.twitter.com/1.1/statuses/filter.json" ∧
    (buildFilterRequest sign terms).body
      = strBytes "track="
        ++ queryEscapeBytes (strBytes (String.intercalate "," terms)) ∧
    (buildFilterRequest sign terms).authHeader
      = sign "POST" streamURL [("track", [String.intercalate "," terms])] ∧
    (buildFilterRequest sign terms).contentTypeHeader
      = "application/x-www-form-urlencoded" ∧
    (buildFilterRequest sign terms).contentLengthHeader
      = Nat.repr (buildFilterRequest sign terms).body.length := by
  have henc : valuesEncode [("track", [String.intercalate "," terms])]
      = strBytes "track="
        ++ queryEscapeBytes (strBytes (String.intercalate "," terms)) := by
    have hkey : queryEscapeBytes (strBytes "track") ++ [61] = strBytes "track=" := by
      decide
    simp only [valuesEncode, sortStrings, insortStr, List.map_cons, List.map_nil,
      List.foldr_cons, List.foldr_nil, List.flatMap_cons, List.flatMap_nil,
      List.find?_cons_of_pos, List.intercalate]
    simp [pairEncode, ← hkey, List.append_assoc]
  exact ⟨rfl, rfl, henc, rfl, rfl, rfl⟩
